import Mathlib

/-!
# birthday-bg: a verification development for `main.cpp`

A shallow embedding of the pure parts of `src/birthday-bg/main.cpp` and of the
control flow of its two effectful functions (`render_image`, `WinMain`).

Conventions of the embedding

* A `std::string` is a `List Char` (`Str`); one `Char` stands for one `char`.
* `std::vector<T>` is `List T`; `push_back` appends at the end.
* Values the program obtains from its environment (the clock, the file system,
  GDI+, the Win32 wallpaper call) are explicit arguments.
* A local variable that the source reads without having initialised it is an
  explicit argument as well (its indeterminate value).
-/

namespace BirthdayBg

/-- A `std::string`, one `Char` per `char`. -/
abbrev Str := List Char

/-! ## Data model (main.cpp 32-58) -/

/-- The record `struct Person` (main.cpp 33-37). -/
structure Person where
  name : Str
  birthday : Str
  other_info : Str
  deriving DecidableEq, Repr

/-- The default constructed `Person`: three empty strings. -/
def Person.empty : Person := ⟨[], [], []⟩

/-- The record `struct FontConfig` (main.cpp 40-46). -/
structure FontConfig where
  size : Int
  family : Str
  color : Str
  deriving DecidableEq, Repr

/-- The constructor `FontConfig()` (main.cpp 45): size 24, "Arial", "ffffff". -/
def FontConfig.default : FontConfig := ⟨24, "Arial".toList, "ffffff".toList⟩

/-- The record `struct RenderConfig` (main.cpp 49-53). -/
structure RenderConfig where
  x : Int
  y : Int
  info : Str
  font : FontConfig
  deriving DecidableEq, Repr

/-- The record `struct Config` (main.cpp 56-58): its one member `render`. -/
abbrev Config := List RenderConfig

/-! ## Date matcher (main.cpp 207-219) -/

/-- The loop of `find_birthday_people` (main.cpp 212-216): `acc` is the vector
`birthday_people` built so far. -/
def find_birthday_loop (today : Str) : List Person → List Person → List Person
  | [], acc => acc
  | person :: rest, acc =>
    if person.birthday = today then find_birthday_loop today rest (acc ++ [person])
    else find_birthday_loop today rest acc

/-- The function `find_birthday_people` (main.cpp 208-219). The argument `today`
is the value of the call `get_current_date()` on line 210. -/
def find_birthday_people (today : Str) (people : List Person) : List Person :=
  find_birthday_loop today people []

/-! ## Field lookup (main.cpp 221-227) -/

/-- The function `get_person_field` (main.cpp 222-227). -/
def get_person_field (person : Person) (field : Str) : Str :=
  if field = "name".toList then person.name
  else if field = "birthday".toList then person.birthday
  else if field = "other_info".toList then person.other_info
  else []

/-! ## Today's date (main.cpp 196-205) -/

/-- The fields of `struct tm` that `get_current_date` reads. -/
structure tm where
  tm_mon : Int
  tm_mday : Int
  deriving DecidableEq, Repr

/-- The digits of `n` in base ten, most significant first, pushed in front of
`acc`; `fuel` bounds the number of digits. -/
def to_string_digits : Nat → Nat → Str → Str
  | 0, _, acc => acc
  | fuel + 1, n, acc =>
    let acc1 := Char.ofNat ('0'.toNat + n % 10) :: acc
    if n / 10 = 0 then acc1 else to_string_digits fuel (n / 10) acc1

/-- The library function `std::to_string(int)`: what `%d` prints. -/
def to_string (v : Int) : Str :=
  if v < 0 then '-' :: to_string_digits (v.natAbs + 1) v.natAbs []
  else to_string_digits (v.natAbs + 1) v.natAbs []

/-- The function `get_current_date` (main.cpp 197-205); `ltm` is the value
`localtime` returns for the current time. -/
def get_current_date (ltm : tm) : Str :=
  let month := 1 + ltm.tm_mon
  let day := ltm.tm_mday
  to_string month ++ ".".toList ++ to_string day

/-- The number a text of decimal digits denotes. -/
def decimal_value (s : Str) : Int :=
  s.foldl (fun acc c => acc * 10 + ((c.toNat : Int) - 48)) 0

/-- Reads a date string back: the month index from the digits before the first
'.', the day from the digits after it. Used to state that the date string
determines month and day. -/
def read_date (s : Str) : tm :=
  ⟨decimal_value (s.takeWhile (fun c => c != '.')) - 1,
   decimal_value ((s.dropWhile (fun c => c != '.')).drop 1)⟩

/-! ## Record store (main.cpp 60-124) -/

/-- The file system as `read_file_as_bin` sees it: `none` when the file
cannot be opened or read. -/
abbrev FileSystem := Str → Option Str

/-- The function `read_file_as_bin` (main.cpp 61-76): the bytes of the file, the
empty vector when it cannot be opened or read. -/
def read_file_as_bin (fs : FileSystem) (filename : Str) : Str :=
  match fs filename with
  | none => []
  | some bytes => bytes

/-- The library function `std::getline(stream, field, delim)` on a string
stream whose unread text is `s`: `none` when no character can be extracted
(the stream then fails and stays failed), otherwise the text before the first
`delim` and the unread text after it (the delimiter is extracted and
dropped). -/
def getline (delim : Char) (s : Str) : Option (Str × Str) :=
  match s with
  | [] => none
  | c :: cs =>
    some ((c :: cs).takeWhile (fun k => k != delim),
          ((c :: cs).dropWhile (fun k => k != delim)).drop 1)

/-- The library function `std::string::find_first_not_of(chars)`: `none` is
`npos`. -/
def find_first_not_of (chars : Str) : Str → Option Nat
  | [] => none
  | c :: cs =>
    if c ∈ chars then (find_first_not_of chars cs).map (fun i => i + 1) else some 0

/-- The library function `std::string::find_last_not_of(chars)`: `none` is
`npos`. -/
def find_last_not_of (chars : Str) : Str → Option Nat
  | [] => none
  | c :: cs =>
    match find_last_not_of chars cs with
    | some i => some (i + 1)
    | none => if c ∈ chars then none else some 0

/-- The call `s.erase(0, n)`: removes the first `n` characters, all of them when
`n` is `npos` (or exceeds the size). -/
def erase_front (s : Str) (n : Option Nat) : Str :=
  match n with
  | none => []
  | some k => s.drop k

/-- The call `s.erase(last + 1)`: removes everything from position `last + 1`;
`npos + 1` wraps to 0, which removes everything. -/
def erase_after (s : Str) (last : Option Nat) : Str :=
  match last with
  | none => s.take 0
  | some i => s.take (i + 1)

/-- The two `erase` statements applied to each field (main.cpp 101-102, 108-109,
115-116). -/
def trim_field (field : Str) : Str :=
  let s := erase_front field (find_first_not_of " \t".toList field)
  erase_after s (find_last_not_of " \t".toList s)

/-- The body of the `while` loop for one non-empty line (main.cpp 93-117): the
`Person` built from it. Once a `getline` fails, the line stream stays failed
and the later fields keep their empty default. -/
def parse_line (line : Str) : Person :=
  match getline ',' line with
  | none => Person.empty
  | some (field1, rest1) =>
    match getline ',' rest1 with
    | none => ⟨trim_field field1, [], []⟩
    | some (field2, rest2) =>
      match getline '\n' rest2 with
      | none => ⟨trim_field field1, trim_field field2, []⟩
      | some (field3, _) => ⟨trim_field field1, trim_field field2, trim_field field3⟩

set_option linter.unusedVariables false in
/-- The `while (getline(stream, line))` loop (main.cpp 90-120): `stream` is the
unread text, `people` the vector built so far. -/
def parse_csv_loop (stream : Str) (people : List Person) : List Person :=
  match h : getline '\n' stream with
  | none => people
  | some (line, rest) =>
    if line = [] then parse_csv_loop rest people
    else parse_csv_loop rest (people ++ [parse_line line])
termination_by stream.length
decreasing_by
  all_goals
    cases stream with
    | nil => simp [getline] at h
    | cons c cs =>
      simp only [getline, Option.some.injEq, Prod.mk.injEq] at h
      rw [← h.2]
      simp only [List.length_drop, List.length_cons]
      have := (List.dropWhile_sublist (l := c :: cs) (fun k => k != '\n')).length_le
      simp only [List.length_cons] at this
      omega

/-- The function `parse_csv` (main.cpp 79-124). -/
def parse_csv (fs : FileSystem) (filename : Str) : List Person :=
  let data := read_file_as_bin fs filename
  if data = [] then []
  else
    match getline '\n' data with
    | none => []
    | some (_, stream) => parse_csv_loop stream []

/-- A text with the leading and the trailing characters that satisfy `ws`
removed. -/
def strip (ws : Char → Bool) (s : Str) : Str :=
  ((s.dropWhile ws).reverse.dropWhile ws).reverse

/-- The test for a space or a tab. -/
def is_blank (c : Char) : Bool := c == ' ' || c == '\t'

/-- The three fields of a data line. -/
structure Row where
  field1 : Str
  field2 : Str
  field3 : Str
  deriving DecidableEq, Repr

/-- A field of a valid data line holds no comma and no line feed. -/
def Row.valid (row : Row) : Prop :=
  (',' ∉ row.field1 ∧ '\n' ∉ row.field1) ∧ (',' ∉ row.field2 ∧ '\n' ∉ row.field2)
    ∧ (',' ∉ row.field3 ∧ '\n' ∉ row.field3)

instance (row : Row) : Decidable row.valid := by
  unfold Row.valid
  infer_instance

/-- The text of a data line: the three fields with a comma between them. -/
def Row.line (row : Row) : Str :=
  row.field1 ++ ',' :: row.field2 ++ ',' :: row.field3

/-- The text of a file: the header line, then each data line on a line of its
own. -/
def csv_text (header : Str) (rows : List Row) : Str :=
  header ++ rows.flatMap (fun row => '\n' :: row.line)

/-- The record a data line stands for when leading and trailing characters
that satisfy `ws` are removed from each field. -/
def Row.person (ws : Char → Bool) (row : Row) : Person :=
  ⟨strip ws row.field1, strip ws row.field2, strip ws row.field3⟩

/-! ## Colours (main.cpp 229-240) -/

/-- A GDI+ `Color`: four bytes. -/
structure Color where
  a : Nat
  r : Nat
  g : Nat
  b : Nat
  deriving DecidableEq, Repr

/-- The constructor `Color(BYTE a, BYTE r, BYTE g, BYTE b)`: each argument is
converted to a byte. -/
def Color.make (a r g b : Nat) : Color := ⟨a % 256, r % 256, g % 256, b % 256⟩

/-- The library predicate `isspace` in the C locale. -/
def isspace (c : Char) : Bool :=
  c == ' ' || c == '\t' || c == '\n' || c == Char.ofNat 11 || c == Char.ofNat 12 || c == '\r'

/-- The value of a hexadecimal digit as `%x` reads it, `none` for any other
character. -/
def hex_digit_value (c : Char) : Option Nat :=
  if '0'.toNat ≤ c.toNat ∧ c.toNat ≤ '9'.toNat then some (c.toNat - '0'.toNat)
  else if 'a'.toNat ≤ c.toNat ∧ c.toNat ≤ 'f'.toNat then some (c.toNat - 'a'.toNat + 10)
  else if 'A'.toNat ≤ c.toNat ∧ c.toNat ≤ 'F'.toNat then some (c.toNat - 'A'.toNat + 10)
  else none

/-- Continues a hexadecimal number whose value so far is `acc` over the
leading hexadecimal digits of the text, in `unsigned int` arithmetic. -/
def scan_hex_run (acc : Nat) : Str → Nat
  | [] => acc
  | c :: cs =>
    match hex_digit_value c with
    | none => acc
    | some d => scan_hex_run ((acc * 16 + d) % 2 ^ 32) cs

/-- The digits part of a `%x` conversion: `none` when the text does not start
with a hexadecimal digit. -/
def scan_hex_number (s : Str) : Option Nat :=
  match s with
  | [] => none
  | c :: cs =>
    match hex_digit_value c with
    | none => none
    | some d => some (scan_hex_run d cs)

/-- Drops an optional leading `0x` or `0X`. -/
def skip_0x (s : Str) : Str :=
  match s with
  | c :: x :: rest => if c = '0' ∧ (x = 'x' ∨ x = 'X') then rest else s
  | _ => s

/-- The library call `sscanf(s.c_str(), "%x", &v)`: the value it stores in `v`,
`none` when it stores nothing (input or matching failure). The text ends at the
first NUL; leading white space is skipped; an optional sign and an optional
`0x` prefix precede the digits; a minus sign negates in `unsigned int`. A
prefix `0x` without a digit after it is taken as a matching failure, as the C
standard has it. -/
def sscanf_x (s : Str) : Option Nat :=
  let text := s.takeWhile (fun c => c != Char.ofNat 0)
  let t1 := text.dropWhile isspace
  let neg := t1.head? == some '-'
  let t2 := if t1.head? == some '-' || t1.head? == some '+' then t1.drop 1 else t1
  match scan_hex_number (skip_0x t2) with
  | none => none
  | some v => some (if neg then (2 ^ 32 - v) % 2 ^ 32 else v)

/-- The call `s.substr(pos, n)` for `pos` within the string. -/
def substr (s : Str) (pos n : Nat) : Str := (s.drop pos).take n

/-- The indeterminate values of the locals `r`, `g`, `b` of `hex_to_color`,
which are declared without an initialiser (main.cpp 233). -/
structure Uninit where
  r : Nat
  g : Nat
  b : Nat
  deriving DecidableEq, Repr

/-- The function `hex_to_color` (main.cpp 230-240). A `sscanf` that stores
nothing leaves the local at its indeterminate value `u`. -/
def hex_to_color (u : Uninit) (hex : Str) : Color :=
  let color_str := hex
  if color_str.length = 6 then
    let r := match sscanf_x (substr color_str 0 2) with
      | some v => v
      | none => u.r
    let g := match sscanf_x (substr color_str 2 2) with
      | some v => v
      | none => u.g
    let b := match sscanf_x (substr color_str 4 2) with
      | some v => v
      | none => u.b
    Color.make 255 r g b
  else Color.make 255 255 255 255

/-- The characters the claims call hexadecimal digits. -/
def hex_digits : Str := "0123456789abcdefABCDEF".toList

/-- The value of a hexadecimal digit read off the digit table
"0123456789abcdef" (case ignored). -/
def digit_table_value (c : Char) : Nat := "0123456789abcdef".toList.indexOf c.toLower

/-- The value of two digits read as a two-digit base-16 number. -/
def two_digit_value (hi lo : Char) : Nat := 16 * digit_table_value hi + digit_table_value lo

/-! ## Layout config (main.cpp 126-194) -/

/-- A node of the rapidyaml tree: an optional key, an optional scalar value
and the children in document order. -/
inductive Node where
  | mk (key : Option Str) (val : Option Str) (children : List Node)

/-- The key of a node. -/
def Node.key : Node → Option Str
  | .mk k _ _ => k

/-- The scalar of a node. -/
def Node.val : Node → Option Str
  | .mk _ v _ => v

/-- The range `node.children()`. -/
def Node.children : Node → List Node
  | .mk _ _ cs => cs

/-- The call `node.has_child(name)`. -/
def Node.has_child (n : Node) (name : Str) : Bool :=
  n.children.any (fun c => c.key == some name)

/-- The child `node[name]`, the first one with that key. -/
def Node.child (n : Node) (name : Str) : Option Node :=
  n.children.find? (fun c => c.key == some name)

/-- What `parse_yaml` takes from its environment. -/
structure YamlEnv where
  /-- The call `ryml::parse_in_arena`: `none` when the text is rejected. -/
  parse_in_arena : Str → Option Node
  /-- The conversion of a scalar to `int` by `>>`: `none` when it is rejected. -/
  read_int : Str → Option Int
  /-- The indeterminate values of the members `x` and `y` of the local
  `render_config` of the i-th loop iteration, which is declared without an
  initialiser (main.cpp 144; `RenderConfig` has no constructor). -/
  indeterminate : Nat → Int × Int

/-- The statement `if (node.has_child(name)) node[name] >> target` for an
`int` target whose current value is `cur`: `none` when the conversion is
rejected. -/
def read_int_child (env : YamlEnv) (node : Node) (name : Str) (cur : Int) : Option Int :=
  if node.has_child name then
    match node.child name with
    | none => some cur
    | some c =>
      match c.val with
      | none => none
      | some v => env.read_int v
  else some cur

/-- The statement `if (node.has_child(name)) node[name] >> target` for a
`string` target whose current value is `cur`: `none` when the child holds no
scalar. -/
def read_str_child (node : Node) (name : Str) (cur : Str) : Option Str :=
  if node.has_child name then
    match node.child name with
    | none => some cur
    | some c => c.val
  else some cur

/-- The block "Parse position" (main.cpp 147-155) on coordinates `(x, y)`. -/
def parse_pos (env : YamlEnv) (item : Node) (xy : Int × Int) : Option (Int × Int) :=
  if item.has_child "pos".toList then
    match item.child "pos".toList with
    | none => some xy
    | some pos =>
      match read_int_child env pos "x".toList xy.1 with
      | none => none
      | some x =>
        match read_int_child env pos "y".toList xy.2 with
        | none => none
        | some y => some (x, y)
  else some xy

/-- The block "Parse font configuration" (main.cpp 165-183). -/
def parse_font (env : YamlEnv) (item : Node) (font : FontConfig) : Option FontConfig :=
  if item.has_child "font".toList then
    match item.child "font".toList with
    | none => some font
    | some f =>
      match read_int_child env f "size".toList font.size with
      | none => none
      | some size =>
        match read_str_child f "family".toList font.family with
        | none => none
        | some family =>
          match read_str_child f "color".toList font.color with
          | none => none
          | some color => some ⟨size, family, color⟩
  else some font

/-- The body of the loop over the render items (main.cpp 144-183): the
`render_config` pushed for `item`, `none` when a conversion is rejected. The
pair `xy` holds the indeterminate initial values of `x` and `y`. -/
def parse_item (env : YamlEnv) (xy : Int × Int) (item : Node) : Option RenderConfig :=
  match parse_pos env item xy with
  | none => none
  | some (x, y) =>
    match read_str_child item "info".toList [] with
    | none => none
    | some info =>
      match parse_font env item FontConfig.default with
      | none => none
      | some font => some ⟨x, y, info, font⟩

/-- The loop over `render_node.children()` (main.cpp 143-186); `config` is the
vector built so far, whose length is the iteration number. A rejected
conversion leaves the loop through the `catch` (main.cpp 189-191) with the
entries pushed so far. -/
def parse_items (env : YamlEnv) : List Node → Config → Config
  | [], config => config
  | item :: rest, config =>
    match parse_item env (env.indeterminate config.length) item with
    | none => config
    | some rc => parse_items env rest (config ++ [rc])

/-- The function `parse_yaml` (main.cpp 127-194). -/
def parse_yaml (fs : FileSystem) (env : YamlEnv) (filename : Str) : Config :=
  let data := read_file_as_bin fs filename
  if data = [] then []
  else
    match env.parse_in_arena data with
    | none => []
    | some root =>
      if root.has_child "render".toList then
        match root.child "render".toList with
        | none => []
        | some render_node => parse_items env render_node.children []
      else []

/-! ## Text renderer (main.cpp 242-326) -/

/-- The font family a `Font` is made from: the first family of a font file, or
the system family "Arial". -/
inductive FontFace where
  | file (path : Str)
  | arial
  deriving DecidableEq, Repr

/-- A GDI+ `Font` of style regular and unit pixel; `size` is the integer
handed to `static_cast<REAL>`. -/
structure Font where
  face : FontFace
  size : Int
  deriving DecidableEq, Repr

/-- One call `graphics->DrawString(text, -1, font, point, brush)`; `x` and `y`
are the integers handed to `static_cast<REAL>` for the point, `color` the colour
of the solid brush. -/
structure DrawOp where
  text : Str
  font : Font
  x : Int
  y : Int
  color : Color
  deriving DecidableEq, Repr

/-- What `render_image` takes from GDI+, for a type `Bitmap` of images. -/
structure Gdi (Bitmap : Type) where
  /-- Whether `GdiplusStartup` returns `Ok`. -/
  startup_ok : Bool
  /-- The constructor `Bitmap(path)`: `none` when `GetLastStatus()` is not `Ok`. -/
  load : Str → Option Bitmap
  /-- Whether the `Graphics` made for the bitmap reports `Ok`. -/
  graphics_ok : Bitmap → Bool
  /-- The call `AddFontFile(path)`: `none` when the status is not `Ok`, otherwise
  the family count of the collection. -/
  add_font_file : Str → Option Nat
  /-- The value of `found` after `GetFamilies(1, families, &found)`. -/
  families_found : Str → Nat
  /-- The effect of one `DrawString` on the bitmap. -/
  draw_string : Bitmap → DrawOp → Bitmap
  /-- Whether `bitmap->Save(path, png)` returns `Ok`. -/
  save_ok : Bitmap → Str → Bool
  /-- The indeterminate values of the locals of the call of `hex_to_color` made
  after `k` draw operations. -/
  uninit : Nat → Uninit

/-- The function `create_font_from_file` (main.cpp 243-267). -/
def create_font_from_file {Bitmap : Type} (gdi : Gdi Bitmap) (font_path : Str) (size : Int) :
    Font :=
  match gdi.add_font_file font_path with
  | none => ⟨FontFace.arial, size⟩
  | some count =>
    if 0 < count ∧ 0 < gdi.families_found font_path then ⟨FontFace.file font_path, size⟩
    else ⟨FontFace.arial, size⟩

/-- The canvas during the render loops: the bitmap and the draw operations
issued on it so far, oldest first. -/
structure Canvas (Bitmap : Type) where
  bitmap : Bitmap
  draws : List DrawOp

/-- The body of the inner loop (main.cpp 301-313): the draw operation for one
record and one layout element, issued after `k` earlier ones. -/
def draw_op {Bitmap : Type} (gdi : Gdi Bitmap) (k : Nat) (person : Person)
    (render : RenderConfig) : DrawOp :=
  let text := get_person_field person render.info
  let font := create_font_from_file gdi render.font.family render.font.size
  let textColor := hex_to_color (gdi.uninit k) render.font.color
  ⟨text, font, render.x, render.y, textColor⟩

/-- The inner loop `for (render : config.render)` (main.cpp 300-314). -/
def render_elements {Bitmap : Type} (gdi : Gdi Bitmap) (person : Person) :
    List RenderConfig → Canvas Bitmap → Canvas Bitmap
  | [], canvas => canvas
  | render :: rest, canvas =>
    let op := draw_op gdi canvas.draws.length person render
    render_elements gdi person rest ⟨gdi.draw_string canvas.bitmap op, canvas.draws ++ [op]⟩

/-- The outer loop `for (person : birthday_people)` (main.cpp 299-315). -/
def render_people {Bitmap : Type} (gdi : Gdi Bitmap) (config : Config) :
    List Person → Canvas Bitmap → Canvas Bitmap
  | [], canvas => canvas
  | person :: rest, canvas => render_people gdi config rest (render_elements gdi person config canvas)

/-- What a call of `render_image` did: its return value, whether the template
was loaded and a `Graphics` made for it, the draw operations issued, and the
file saved (path and image) when `Save` returned `Ok`. -/
structure RenderResult (Bitmap : Type) where
  ok : Bool
  loaded : Option Bitmap
  draws : List DrawOp
  saved : Option (Str × Bitmap)

/-- The function `render_image` (main.cpp 270-326). The text rendering hint and
`GdiplusShutdown` change nothing that is recorded here. -/
def render_image {Bitmap : Type} (gdi : Gdi Bitmap) (template_path output_path : Str)
    (birthday_people : List Person) (config : Config) : RenderResult Bitmap :=
  if gdi.startup_ok = false then ⟨false, none, [], none⟩
  else
    match gdi.load template_path with
    | none => ⟨false, none, [], none⟩
    | some bitmap =>
      if gdi.graphics_ok bitmap = false then ⟨false, none, [], none⟩
      else
        let canvas := render_people gdi config birthday_people ⟨bitmap, []⟩
        if gdi.save_ok canvas.bitmap output_path then
          ⟨true, some bitmap, canvas.draws, some (output_path, canvas.bitmap)⟩
        else ⟨false, some bitmap, canvas.draws, none⟩

/-- The pairs of a record and a layout element in record-major and
element-minor order: for each record in list order, every layout element in
list order. -/
def layout_pairs (birthday_people : List Person) (config : Config) :
    List (Person × RenderConfig) :=
  birthday_people.flatMap (fun person => config.map (fun render => (person, render)))

/-- The draw operations the layout asks for, numbered from `k`: one for each
pair of `layout_pairs`, in that order. -/
def layout_draws {Bitmap : Type} (gdi : Gdi Bitmap) (k : Nat)
    (pairs : List (Person × RenderConfig)) : List DrawOp :=
  (pairs.enumFrom k).map (fun kpr => draw_op gdi kpr.1 kpr.2.1 kpr.2.2)

/-! ## Program (main.cpp 371-426) -/

/-- What `WinMain` takes from its environment. -/
structure World (Bitmap : Type) where
  fs : FileSystem
  yaml : YamlEnv
  /-- The local time `get_current_date` reads. -/
  ltm : tm
  gdi : Gdi Bitmap
  /-- The call `GetFullPathNameA(path, MAX_PATH, full_path, NULL)`: `none` when it
  returns 0, otherwise the text left in `full_path`. -/
  full_path : Str → Option Str
  /-- The return value of the collaborator `set_desktop_wallpaper` (main.cpp
  329-369). -/
  set_desktop_wallpaper : Str → Bool

/-- A call `WinMain` makes to a collaborator. -/
inductive Event where
  | render (template_path output_path : Str) (birthday_people : List Person) (config : Config)
  | set_wallpaper (image_path : Str) (result : Bool)
  deriving DecidableEq, Repr

/-- What a run of `WinMain` did: its return value and its calls, oldest first. -/
structure Run where
  status : Int
  events : List Event
  deriving DecidableEq, Repr

/-- The path literal of the default image (main.cpp 403, 412). -/
def default_path : Str := "bgs\\default.png".toList

/-- The path literal of the rendered image (main.cpp 407). -/
def rendered_path : Str := "bgs\\birthday_rendered.png".toList

/-- The path literal of the template image (main.cpp 408). -/
def template_path : Str := "bgs\\template.png".toList

/-- The block "Convert to absolute path" (main.cpp 417-420). -/
def to_absolute {Bitmap : Type} (w : World Bitmap) (wallpaper_path : Str) : Str :=
  match w.full_path wallpaper_path with
  | none => wallpaper_path
  | some full => full

/-- The function `WinMain` (main.cpp 372-426). The lines written to `log.txt`
are not recorded; the return value of `set_desktop_wallpaper` is dropped by the
source and kept in the event only. -/
def WinMain {Bitmap : Type} (w : World Bitmap) : Run :=
  let people := parse_csv w.fs "data.csv".toList
  if people = [] then ⟨1, []⟩
  else
    let config := parse_yaml w.fs w.yaml "config.yaml".toList
    if config = [] then ⟨1, []⟩
    else
      let birthday_people := find_birthday_people (get_current_date w.ltm) people
      if birthday_people = [] then
        ⟨0, [Event.set_wallpaper (to_absolute w default_path)
               (w.set_desktop_wallpaper (to_absolute w default_path))]⟩
      else
        let output_path := rendered_path
        if (render_image w.gdi template_path output_path birthday_people config).ok then
          ⟨0, [Event.render template_path output_path birthday_people config,
               Event.set_wallpaper (to_absolute w output_path)
               (w.set_desktop_wallpaper (to_absolute w output_path))]⟩
        else
          ⟨0, [Event.render template_path output_path birthday_people config,
               Event.set_wallpaper (to_absolute w default_path)
               (w.set_desktop_wallpaper (to_absolute w default_path))]⟩

/-- The image paths handed to `set_desktop_wallpaper` during a run. -/
def Run.wallpaper_calls (run : Run) : List Str :=
  run.events.filterMap (fun e =>
    match e with
    | Event.set_wallpaper image_path _ => some image_path
    | _ => none)

/-- The number of calls of `render_image` during a run. -/
def Run.render_calls (run : Run) : Nat :=
  (run.events.filter (fun e =>
    match e with
    | Event.render _ _ _ _ => true
    | _ => false)).length

/-! ## Sample inputs -/

/-- A file system with one text for `data.csv` and one for `config.yaml`. -/
def sample_fs (csv yaml : Str) : FileSystem := fun filename =>
  if filename = "data.csv".toList then some csv
  else if filename = "config.yaml".toList then some yaml
  else none

/-- A data file with line feeds: a header and two data lines. -/
def sample_csv : Str := "name,birthday,note\n Ada , 3.7 ,x y\t\nBob,12.25,\n".toList

/-- The data lines of `sample_csv`. -/
def sample_rows : List Row :=
  [⟨" Ada ".toList, " 3.7 ".toList, "x y\t".toList⟩, ⟨"Bob".toList, "12.25".toList, []⟩]

/-- A data file whose lines end in carriage return and line feed. -/
def crlf_csv : Str := "name,birthday,note\r\nAda,3.7,x\r\n".toList

/-- The one data line of `crlf_csv` as `getline` cuts it at the line feed: the
carriage return stays at the end of the text after the second comma. -/
def crlf_rows : List Row := [⟨"Ada".toList, "3.7".toList, "x\r".toList⟩]

/-- The text of a layout with one entry that has `info` and no `pos`. -/
def no_pos_yaml : Str := "render:\n  - info: name\n".toList

/-- The tree of `no_pos_yaml`: the root map, its child `render`, a sequence of
one map with the one child `info: name`. -/
def no_pos_tree : Node :=
  .mk none none [.mk (some "render".toList) none
    [.mk none none [.mk (some "info".toList) (some "name".toList) []]]]

/-- A YAML environment that parses every text to `tree`, reads no integer and
leaves `xy` in the uninitialised coordinates. -/
def sample_yaml_env (tree : Node) (xy : Int × Int) : YamlEnv :=
  ⟨fun _ => some tree, fun _ => none, fun _ => xy⟩

/-- A GDI+ in which an image is the list of the draw operations applied to an
empty template, every call succeeds and no font file loads. -/
def sample_gdi : Gdi (List DrawOp) :=
  { startup_ok := true
    load := fun _ => some []
    graphics_ok := fun _ => true
    add_font_file := fun _ => none
    families_found := fun _ => 0
    draw_string := fun bitmap op => bitmap ++ [op]
    save_ok := fun _ _ => true
    uninit := fun _ => ⟨0, 0, 0⟩ }

/-- The record of the spec's end-to-end scenario. -/
def ada : Person := ⟨"Ada".toList, "3.7".toList, "x".toList⟩

/-- The layout element of the spec's end-to-end scenario. -/
def name_at_10_10 : RenderConfig := ⟨10, 10, "name".toList, FontConfig.default⟩

/-- A world on March 7 with the data file `sample_csv`, the layout
`no_pos_tree`, and a working directory `C:\app`. -/
def sample_world : World (List DrawOp) :=
  { fs := sample_fs sample_csv no_pos_yaml
    yaml := sample_yaml_env no_pos_tree (0, 0)
    ltm := ⟨2, 7⟩
    gdi := sample_gdi
    full_path := fun path => some ("C:\\app\\".toList ++ path)
    set_desktop_wallpaper := fun _ => true }

/-! # Theorems -/

/-! ## Date matcher -/

/-- The loop of `find_birthday_people` appends the matching records to the
vector built so far. -/
theorem find_birthday_loop_eq (today : Str) (people acc : List Person) :
    find_birthday_loop today people acc
      = acc ++ people.filter (fun p => decide (p.birthday = today)) := by
  induction people generalizing acc with
  | nil => simp [find_birthday_loop]
  | cons p rest ih =>
    by_cases h : p.birthday = today
    · simp [find_birthday_loop, h, ih]
    · simp [find_birthday_loop, h, ih]

/-- C1: for every list of records and every date string `d`,
`find_birthday_people` returns exactly the records whose birthday equals `d`
(the input list filtered by that test, so in input order and unchanged), and
the result is empty exactly when no record has birthday `d`. -/
theorem find_birthday_people_is_filter (d : Str) (people : List Person) :
    find_birthday_people d people = people.filter (fun p => decide (p.birthday = d))
    ∧ (find_birthday_people d people = [] ↔ ∀ p ∈ people, p.birthday ≠ d) := by
  have h := find_birthday_loop_eq d people []
  simp only [List.nil_append] at h
  refine ⟨h, ?_⟩
  unfold find_birthday_people
  rw [h, List.filter_eq_nil_iff]
  simp

/-! ## Field lookup -/

/-- C8: `get_person_field` returns the name for "name", the birthday for
"birthday", the note for "other_info", and the empty string for every other
field name. -/
theorem get_person_field_cases (person : Person) :
    get_person_field person "name".toList = person.name
    ∧ get_person_field person "birthday".toList = person.birthday
    ∧ get_person_field person "other_info".toList = person.other_info
    ∧ ∀ field : Str, field ≠ "name".toList → field ≠ "birthday".toList →
        field ≠ "other_info".toList → get_person_field person field = [] := by
  refine ⟨by simp [get_person_field], ?_, ?_, ?_⟩
  · have h : "birthday".toList ≠ "name".toList := by decide
    simp [get_person_field, h]
  · have h1 : "other_info".toList ≠ "name".toList := by decide
    have h2 : "other_info".toList ≠ "birthday".toList := by decide
    simp [get_person_field, h1, h2]
  · intro field h1 h2 h3
    unfold get_person_field
    rw [if_neg h1, if_neg h2, if_neg h3]

/-! ## Today's date -/

/-- On the calendar range the date string is numeral, dot, numeral, and
`read_date` recovers month index and day from it. -/
theorem get_current_date_range (m d : Int) (hm : 0 ≤ m ∧ m ≤ 11) (hd : 1 ≤ d ∧ d ≤ 31) :
    get_current_date ⟨m, d⟩
        = (Nat.repr (m + 1).toNat).toList ++ '.' :: (Nat.repr d.toNat).toList
    ∧ read_date (get_current_date ⟨m, d⟩) = ⟨m, d⟩ := by
  obtain ⟨hm0, hm1⟩ := hm
  obtain ⟨hd0, hd1⟩ := hd
  interval_cases m <;> interval_cases d <;> exact ⟨by rfl, by rfl⟩

/-- C10: for a month index in 0..11 and a day in 1..31 `get_current_date` returns
the decimal numeral of the month index plus one, one '.', and the decimal
numeral of the day, nothing else; and two dates of that range with the same
string are the same date. -/
theorem get_current_date_format (a b : tm)
    (ha : 0 ≤ a.tm_mon ∧ a.tm_mon ≤ 11 ∧ 1 ≤ a.tm_mday ∧ a.tm_mday ≤ 31)
    (hb : 0 ≤ b.tm_mon ∧ b.tm_mon ≤ 11 ∧ 1 ≤ b.tm_mday ∧ b.tm_mday ≤ 31) :
    get_current_date a
        = (Nat.repr (a.tm_mon + 1).toNat).toList ++ '.' :: (Nat.repr a.tm_mday.toNat).toList
    ∧ (get_current_date a = get_current_date b → a = b) := by
  obtain ⟨am, ad⟩ := a
  obtain ⟨bm, bd⟩ := b
  have h1 := get_current_date_range am ad ⟨ha.1, ha.2.1⟩ ⟨ha.2.2.1, ha.2.2.2⟩
  have h2 := get_current_date_range bm bd ⟨hb.1, hb.2.1⟩ ⟨hb.2.2.1, hb.2.2.2⟩
  refine ⟨h1.1, fun h => ?_⟩
  rw [← h1.2, ← h2.2, h]

/-- Witness for C10: March 7 (month index 2, day 7) gives "3.7", and a date of
the range with that string is March 7. -/
theorem get_current_date_format_witness :
    get_current_date ⟨2, 7⟩ = "3.7".toList
    ∧ (get_current_date ⟨2, 7⟩ = get_current_date ⟨2, 7⟩ → (⟨2, 7⟩ : tm) = ⟨2, 7⟩) :=
  get_current_date_format ⟨2, 7⟩ ⟨2, 7⟩ (by decide) (by decide)

/-! ## Colours -/

/-- Two hexadecimal digits are read by `%x` as their two-digit base-16 value,
which fits a byte. -/
theorem sscanf_x_two_digits :
    ∀ hi ∈ hex_digits, ∀ lo ∈ hex_digits,
      sscanf_x [hi, lo] = some (two_digit_value hi lo) ∧ two_digit_value hi lo < 256 := by
  decide

/-- C3, as amended: for every colour string whose length is not 6,
`hex_to_color` returns opaque white. -/
theorem hex_to_color_wrong_length (u : Uninit) (hex : Str) (h : hex.length ≠ 6) :
    hex_to_color u hex = ⟨255, 255, 255, 255⟩ := by
  unfold hex_to_color
  simp only [h, if_false]
  rfl

/-- Witness for C3: the three-character string "fff" gives opaque white. -/
theorem hex_to_color_wrong_length_witness :
    hex_to_color ⟨1, 2, 3⟩ "fff".toList = ⟨255, 255, 255, 255⟩ :=
  hex_to_color_wrong_length ⟨1, 2, 3⟩ "fff".toList (by decide)

/-- C3, counterexample: the six-character string "12345g" contains the
character 'g', which is no hexadecimal digit, and `hex_to_color` returns the
colour (255, 18, 52, 5), not opaque white; so the claim fails for strings with
a character that is not a hexadecimal digit. -/
theorem hex_to_color_non_hex_counterexample :
    hex_to_color ⟨0, 0, 0⟩ "12345g".toList = ⟨255, 18, 52, 5⟩
    ∧ ¬ (∀ (u : Uninit) (hex : Str), (hex.length ≠ 6 ∨ ∃ c ∈ hex, c ∉ hex_digits) →
          hex_to_color u hex = ⟨255, 255, 255, 255⟩) := by
  have h0 : hex_to_color ⟨0, 0, 0⟩ "12345g".toList = ⟨255, 18, 52, 5⟩ := by decide
  refine ⟨h0, fun h => ?_⟩
  have h1 := h ⟨0, 0, 0⟩ "12345g".toList (Or.inr ⟨'g', by decide, by decide⟩)
  rw [h0] at h1
  exact absurd h1 (by decide)

/-- C4: for a string of exactly six hexadecimal digits (either case)
`hex_to_color` returns the colour with alpha 255 whose red, green and blue are
the 1st-2nd, 3rd-4th and 5th-6th digits read as two-digit base-16 numbers, each
in 0..255. -/
theorem hex_to_color_six_digits (u : Uninit) (d1 d2 d3 d4 d5 d6 : Char)
    (h : ∀ c ∈ [d1, d2, d3, d4, d5, d6], c ∈ hex_digits) :
    hex_to_color u [d1, d2, d3, d4, d5, d6]
        = ⟨255, two_digit_value d1 d2, two_digit_value d3 d4, two_digit_value d5 d6⟩
    ∧ two_digit_value d1 d2 ≤ 255 ∧ two_digit_value d3 d4 ≤ 255
    ∧ two_digit_value d5 d6 ≤ 255 := by
  have r := sscanf_x_two_digits d1 (h d1 (by simp)) d2 (h d2 (by simp))
  have g := sscanf_x_two_digits d3 (h d3 (by simp)) d4 (h d4 (by simp))
  have b := sscanf_x_two_digits d5 (h d5 (by simp)) d6 (h d6 (by simp))
  refine ⟨?_, by omega, by omega, by omega⟩
  have e1 : substr [d1, d2, d3, d4, d5, d6] 0 2 = [d1, d2] := rfl
  have e2 : substr [d1, d2, d3, d4, d5, d6] 2 2 = [d3, d4] := rfl
  have e3 : substr [d1, d2, d3, d4, d5, d6] 4 2 = [d5, d6] := rfl
  unfold hex_to_color
  simp only [List.length_cons, List.length_nil, if_true, e1, e2, e3, r.1, g.1, b.1]
  simp only [Color.make, Color.mk.injEq]
  refine ⟨by norm_num, ?_, ?_, ?_⟩
  · exact Nat.mod_eq_of_lt r.2
  · exact Nat.mod_eq_of_lt g.2
  · exact Nat.mod_eq_of_lt b.2

/-- Witness for C4: "1a2B3c" gives the colour (255, 26, 43, 60). -/
theorem hex_to_color_six_digits_witness :
    hex_to_color ⟨7, 8, 9⟩ "1a2B3c".toList = ⟨255, 26, 43, 60⟩ :=
  (hex_to_color_six_digits ⟨7, 8, 9⟩ '1' 'a' '2' 'B' '3' 'c' (by decide)).1

/-! ## Record store -/

/-- `erase(0, find_first_not_of(chars))` drops the leading characters that are
in `chars`. -/
theorem erase_front_find_first (chars s : Str) :
    erase_front s (find_first_not_of chars s) = s.dropWhile (fun c => decide (c ∈ chars)) := by
  induction s with
  | nil => rfl
  | cons c cs ih =>
    by_cases h : c ∈ chars
    · simp only [find_first_not_of, h, if_true, List.dropWhile_cons, decide_True]
      rw [← ih]
      cases find_first_not_of chars cs <;> rfl
    · simp [find_first_not_of, h, erase_front, List.dropWhile_cons]

/-- `find_last_not_of` finds nothing exactly when every character is in
`chars`. -/
theorem find_last_not_of_eq_none (chars s : Str) :
    find_last_not_of chars s = none ↔ ∀ c ∈ s, c ∈ chars := by
  induction s with
  | nil => simp [find_last_not_of]
  | cons c cs ih =>
    cases hl : find_last_not_of chars cs with
    | none =>
      have hall := ih.mp hl
      by_cases h : c ∈ chars
      · simp only [find_last_not_of, hl, h, if_true, true_iff]
        intro k hk
        rcases List.mem_cons.mp hk with rfl | hk
        · exact h
        · exact hall k hk
      · simp [find_last_not_of, hl, h]
    | some i =>
      have hne : ¬ ∀ c ∈ cs, c ∈ chars := fun hall => by
        rw [ih.mpr hall] at hl
        cases hl
      simp only [find_last_not_of, hl]
      refine ⟨fun hbad => (by cases hbad), fun hall => ?_⟩
      exfalso
      exact hne (fun k hk => hall k (List.mem_cons_of_mem _ hk))

/-- `erase(find_last_not_of(chars) + 1)` drops the trailing characters that are
in `chars`. -/
theorem erase_after_find_last (chars s : Str) :
    erase_after s (find_last_not_of chars s)
      = (s.reverse.dropWhile (fun c => decide (c ∈ chars))).reverse := by
  induction s with
  | nil => rfl
  | cons c cs ih =>
    cases hl : find_last_not_of chars cs with
    | none =>
      have hall := (find_last_not_of_eq_none chars cs).mp hl
      have hdrop : cs.reverse.dropWhile (fun c => decide (c ∈ chars)) = [] := by
        rw [List.dropWhile_eq_nil_iff]
        intro k hk
        simpa using hall k (List.mem_reverse.mp hk)
      by_cases h : c ∈ chars
      · simp [find_last_not_of, hl, h, erase_after, List.dropWhile_append, hdrop]
      · simp [find_last_not_of, hl, h, erase_after, List.dropWhile_append, hdrop]
    | some i =>
      have hne : cs.reverse.dropWhile (fun c => decide (c ∈ chars)) ≠ [] := by
        intro hdrop
        rw [List.dropWhile_eq_nil_iff] at hdrop
        have hall : ∀ k ∈ cs, k ∈ chars := fun k hk => by
          simpa using hdrop k (List.mem_reverse.mpr hk)
        rw [(find_last_not_of_eq_none chars cs).mpr hall] at hl
        cases hl
      rw [hl] at ih
      simp only [erase_after] at ih
      simp [find_last_not_of, hl, erase_after, List.dropWhile_append, hne, ih]

/-- The two `erase` statements strip spaces and tabs from both ends. -/
theorem trim_field_eq_strip (field : Str) : trim_field field = strip is_blank field := by
  have hfun : (fun c => decide (c ∈ " \t".toList)) = is_blank := by
    funext c
    simp only [is_blank, String.toList, List.mem_cons, List.mem_singleton, List.not_mem_nil,
      or_false, Bool.decide_or]
    rfl
  unfold trim_field strip
  simp only [erase_front_find_first, erase_after_find_last, hfun]

/-- `getline` on a text without the delimiter that is followed by nothing or
by the delimiter: the text is the field, and what follows the delimiter stays
unread. -/
theorem getline_field (delim : Char) (l rest : Str) (hl : delim ∉ l)
    (hrest : rest = [] ∨ ∃ more, rest = delim :: more) (hne : l ++ rest ≠ []) :
    getline delim (l ++ rest) = some (l, rest.drop 1) := by
  have hall : ∀ k ∈ l, (k != delim) = true := by
    intro k hk
    simp only [bne_iff_ne, ne_eq]
    rintro rfl
    exact hl hk
  have htake : (l ++ rest).takeWhile (fun k => k != delim) = l := by
    rw [List.takeWhile_append_of_pos hall]
    rcases hrest with rfl | ⟨more, rfl⟩ <;> simp
  have hdrop : (l ++ rest).dropWhile (fun k => k != delim) = rest := by
    rw [List.dropWhile_append_of_pos hall]
    rcases hrest with rfl | ⟨more, rfl⟩ <;> simp
  cases hs : l ++ rest with
  | nil => exact absurd hs hne
  | cons c cs =>
    simp only [getline]
    rw [← hs, htake, hdrop]

/-- One step of the `while` loop of `parse_csv`. -/
theorem parse_csv_loop_step (stream : Str) (people : List Person) :
    parse_csv_loop stream people =
      match getline '\n' stream with
      | none => people
      | some (line, rest) =>
        if line = [] then parse_csv_loop rest people
        else parse_csv_loop rest (people ++ [parse_line line]) := by
  rw [parse_csv_loop]
  split <;> simp_all

/-- The loop body on a valid data line yields the record of the three fields,
each stripped of spaces and tabs at both ends. -/
theorem parse_line_row (row : Row) (h : row.valid) :
    parse_line row.line = row.person is_blank := by
  obtain ⟨⟨h1, _⟩, ⟨h2, _⟩, ⟨_, h3⟩⟩ := h
  have e1 : getline ',' row.line = some (row.field1, row.field2 ++ ',' :: row.field3) := by
    have := getline_field ',' row.field1 (',' :: row.field2 ++ ',' :: row.field3) h1
      (Or.inr ⟨_, rfl⟩) (by simp)
    simpa [Row.line] using this
  have e2 : getline ',' (row.field2 ++ ',' :: row.field3) = some (row.field2, row.field3) := by
    have := getline_field ',' row.field2 (',' :: row.field3) h2 (Or.inr ⟨_, rfl⟩) (by simp)
    simpa using this
  unfold parse_line
  simp only [e1, e2, Row.person, ← trim_field_eq_strip]
  cases h3f : row.field3 with
  | nil => simp [getline, trim_field, erase_front, erase_after, find_first_not_of, find_last_not_of]
  | cons c cs =>
    have e3 := getline_field '\n' row.field3 [] h3 (Or.inl rfl) (by simp [h3f])
    simp only [List.append_nil, List.drop_nil] at e3
    rw [h3f] at e3
    simp only [e3]

/-- The `while` loop on the text of valid data lines, each on a line of its
own, the last one followed by nothing or by one line feed: one record a line, in
order. -/
theorem parse_csv_loop_rows (row : Row) (rows : List Row) (tail : Str)
    (people : List Person) (hrow : row.valid) (hrows : ∀ r ∈ rows, r.valid)
    (htail : tail = [] ∨ tail = ['\n']) :
    parse_csv_loop (row.line ++ (rows.flatMap (fun r => '\n' :: r.line) ++ tail)) people
      = people ++ (row :: rows).map (Row.person is_blank) := by
  induction rows generalizing row people with
  | nil =>
    have hl : '\n' ∉ row.line := by
      obtain ⟨⟨_, a⟩, ⟨_, b⟩, ⟨_, c⟩⟩ := hrow
      simp [Row.line, a, b, c]
    have hne : row.line ≠ [] := by simp [Row.line]
    have hg : getline '\n' (row.line ++ tail) = some (row.line, []) := by
      have := getline_field '\n' row.line tail hl
        (by rcases htail with rfl | rfl
            · exact Or.inl rfl
            · exact Or.inr ⟨[], rfl⟩) (by simp [hne])
      rcases htail with rfl | rfl <;> simpa using this
    rw [parse_csv_loop_step]
    simp only [List.flatMap_nil, List.nil_append, hg, hne, if_false]
    rw [parse_csv_loop_step]
    simp [getline, parse_line_row row hrow]
  | cons r rest ih =>
    have hl : '\n' ∉ row.line := by
      obtain ⟨⟨_, a⟩, ⟨_, b⟩, ⟨_, c⟩⟩ := hrow
      simp [Row.line, a, b, c]
    have hne : row.line ≠ [] := by simp [Row.line]
    have hg := getline_field '\n' row.line
      ('\n' :: (r.line ++ (rest.flatMap (fun r => '\n' :: r.line) ++ tail))) hl
      (Or.inr ⟨_, rfl⟩) (by simp [hne])
    rw [parse_csv_loop_step]
    simp only [List.flatMap_cons, List.cons_append, List.append_assoc] at hg ⊢
    simp only [hg, hne, if_false, List.drop_succ_cons, List.drop_zero]
    rw [ih r (people ++ [parse_line row.line]) (hrows r (List.mem_cons_self _ _))
      (fun k hk => hrows k (List.mem_cons_of_mem _ hk))]
    simp [parse_line_row row hrow]

/-- `parse_csv` on a file made of a header line and valid data lines: one record
a data line, in file order, none for the header, the fields stripped of spaces
and tabs at both ends. -/
theorem parse_csv_of_csv_text (fs : FileSystem) (filename header : Str) (rows : List Row)
    (tail : Str) (hheader : '\n' ∉ header) (hrows : ∀ r ∈ rows, r.valid)
    (htail : tail = [] ∨ tail = ['\n'])
    (hfile : fs filename = some (csv_text header rows ++ tail)) :
    parse_csv fs filename = rows.map (Row.person is_blank) := by
  unfold parse_csv read_file_as_bin
  simp only [hfile]
  split
  · next hempty =>
    cases rows with
    | nil => rfl
    | cons r rest => simp [csv_text] at hempty
  · next hdata =>
    cases rows with
    | nil =>
      have hg : getline '\n' (csv_text header [] ++ tail) = some (header, []) := by
        have := getline_field '\n' header tail hheader
          (by rcases htail with rfl | rfl
              · exact Or.inl rfl
              · exact Or.inr ⟨[], rfl⟩) (by simpa [csv_text] using hdata)
        rcases htail with rfl | rfl <;> simpa [csv_text] using this
      simp only [hg]
      rw [parse_csv_loop_step]
      simp [getline]
    | cons r rest =>
      have hg := getline_field '\n' header
        ('\n' :: (r.line ++ (rest.flatMap (fun r => '\n' :: r.line) ++ tail))) hheader
        (Or.inr ⟨_, rfl⟩) (by simp)
      simp only [csv_text, List.flatMap_cons, List.cons_append, List.append_assoc] at hg ⊢
      simp only [hg, List.drop_succ_cons, List.drop_zero]
      rw [parse_csv_loop_rows r rest tail [] (hrows r (List.mem_cons_self _ _))
        (fun k hk => hrows k (List.mem_cons_of_mem _ hk)) htail]
      simp

/-- C2, the code at a file whose lines end in carriage return and line feed,
"name,birthday,note\r\nAda,3.7,x\r\n": the file is read in binary mode and cut
at the line feeds, and the trim statements (commented "Trim whitespace") erase
only spaces and tabs, so the record of the data line "Ada,3.7,x" gets the
other_info "x\r", with the carriage return, and not the third field "x". -/
theorem parse_csv_crlf_keeps_carriage_return :
    parse_csv (sample_fs crlf_csv []) "data.csv".toList
      = [⟨"Ada".toList, "3.7".toList, "x\r".toList⟩]
    ∧ parse_csv (sample_fs crlf_csv []) "data.csv".toList
      ≠ [⟨"Ada".toList, "3.7".toList, "x".toList⟩] := by
  have hcode : parse_csv (sample_fs crlf_csv []) "data.csv".toList
      = [⟨"Ada".toList, "3.7".toList, "x\r".toList⟩] :=
    parse_csv_of_csv_text (sample_fs crlf_csv []) "data.csv".toList
      "name,birthday,note\r".toList crlf_rows ['\n'] (by decide) (by decide) (Or.inr rfl) rfl
  refine ⟨hcode, ?_⟩
  rw [hcode]
  decide

/-! ## Layout config -/

/-- C5, the code at a layout entry without `pos`: the entry is appended without
an error, and its `x` and `y` are the indeterminate values the uninitialised
local `render_config` happens to hold, whatever they are, not 0. -/
theorem parse_yaml_no_pos_indeterminate (x0 y0 : Int) :
    parse_yaml (sample_fs [] no_pos_yaml) (sample_yaml_env no_pos_tree (x0, y0))
        "config.yaml".toList
      = [⟨x0, y0, "name".toList, FontConfig.default⟩] := by
  rfl

/-! ## Text renderer -/

/-- The inner loop issues one draw operation for each layout element, in list
order, on the canvas it is given. -/
theorem render_elements_eq {Bitmap : Type} (gdi : Gdi Bitmap) (person : Person)
    (config : Config) (canvas : Canvas Bitmap) :
    render_elements gdi person config canvas
      = ⟨(layout_draws gdi canvas.draws.length
            (config.map (fun render => (person, render)))).foldl gdi.draw_string canvas.bitmap,
         canvas.draws ++ layout_draws gdi canvas.draws.length
            (config.map (fun render => (person, render)))⟩ := by
  induction config generalizing canvas with
  | nil => simp [render_elements, layout_draws]
  | cons r rest ih =>
    simp only [render_elements, ih, layout_draws, List.map_cons, List.enumFrom_cons,
      List.foldl_cons, List.length_append, List.length_singleton, List.append_assoc,
      List.singleton_append]

/-- The outer loop issues the draw operations of `layout_pairs`, in order, on
the canvas it is given. -/
theorem render_people_eq {Bitmap : Type} (gdi : Gdi Bitmap) (config : Config)
    (people : List Person) (canvas : Canvas Bitmap) :
    render_people gdi config people canvas
      = ⟨(layout_draws gdi canvas.draws.length
            (layout_pairs people config)).foldl gdi.draw_string canvas.bitmap,
         canvas.draws ++ layout_draws gdi canvas.draws.length (layout_pairs people config)⟩ := by
  induction people generalizing canvas with
  | nil => simp [render_people, layout_draws, layout_pairs]
  | cons p rest ih =>
    simp only [render_people, ih, render_elements_eq]
    simp only [layout_draws, layout_pairs, List.flatMap_cons, List.enumFrom_append,
      List.map_append, List.foldl_append, List.length_append, List.length_map,
      List.enumFrom_length, List.append_assoc]

/-- The number of pairs of `layout_pairs`. -/
theorem layout_pairs_length (people : List Person) (config : Config) :
    (layout_pairs people config).length = people.length * config.length := by
  induction people with
  | nil => simp [layout_pairs]
  | cons p rest ih =>
    simp only [layout_pairs, List.flatMap_cons, List.length_append, List.length_map,
      List.length_cons] at ih ⊢
    rw [ih, Nat.add_mul, Nat.one_mul, Nat.add_comm]

/-- C9: once GDI+ has started and the template has loaded, `render_image`
issues exactly the draw operations of the pairs (record, layout element) in
record-major, element-minor order, which are (number of records) x (number of
layout elements) many, all on the one canvas that started as the template;
each draws the record's field named by the element at the element's (x, y) with
the element's colour and size; with no record it issues none, and the canvas it
saves is the template. -/
theorem render_image_draws {Bitmap : Type} (gdi : Gdi Bitmap) (template output : Str)
    (people : List Person) (config : Config) (bitmap : Bitmap)
    (hstart : gdi.startup_ok = true) (hload : gdi.load template = some bitmap)
    (hgraphics : gdi.graphics_ok bitmap = true) :
    (render_image gdi template output people config).draws
        = layout_draws gdi 0 (layout_pairs people config)
    ∧ (render_image gdi template output people config).draws.length
        = people.length * config.length
    ∧ (render_image gdi template output people config).saved
        = (if gdi.save_ok ((layout_draws gdi 0 (layout_pairs people config)).foldl
              gdi.draw_string bitmap) output
           then some (output, (layout_draws gdi 0 (layout_pairs people config)).foldl
              gdi.draw_string bitmap)
           else none)
    ∧ (∀ (k : Nat) (person : Person) (render : RenderConfig),
        (draw_op gdi k person render).text = get_person_field person render.info
        ∧ (draw_op gdi k person render).x = render.x
        ∧ (draw_op gdi k person render).y = render.y
        ∧ (draw_op gdi k person render).color = hex_to_color (gdi.uninit k) render.font.color
        ∧ (draw_op gdi k person render).font.size = render.font.size)
    ∧ (render_image gdi template output [] config).draws = []
    ∧ (render_image gdi template output [] config).saved
        = (if gdi.save_ok bitmap output then some (output, bitmap) else none) := by
  have hrun : ∀ ps : List Person,
      render_image gdi template output ps config
        = (if gdi.save_ok ((layout_draws gdi 0 (layout_pairs ps config)).foldl
              gdi.draw_string bitmap) output
           then ⟨true, some bitmap, layout_draws gdi 0 (layout_pairs ps config),
              some (output, (layout_draws gdi 0 (layout_pairs ps config)).foldl
                gdi.draw_string bitmap)⟩
           else ⟨false, some bitmap, layout_draws gdi 0 (layout_pairs ps config), none⟩) := by
    intro ps
    unfold render_image
    simp [hstart, hload, hgraphics, render_people_eq]
  have hlen : (layout_draws gdi 0 (layout_pairs people config)).length
      = people.length * config.length := by
    simp [layout_draws, layout_pairs_length]
  have hnil : layout_draws gdi 0 (layout_pairs [] config) = [] := by
    simp [layout_draws, layout_pairs]
  refine ⟨?_, ?_, ?_, ?_, ?_, ?_⟩
  · rw [hrun]; split <;> rfl
  · rw [hrun]; split <;> exact hlen
  · rw [hrun]; split <;> rfl
  · intro k person render
    refine ⟨rfl, rfl, rfl, rfl, ?_⟩
    simp only [draw_op, create_font_from_file]
    split
    · rfl
    · split <;> rfl
  · rw [hrun, hnil]; split <;> rfl
  · rw [hrun, hnil]
    simp only [List.foldl_nil]
    split <;> rfl

/-- Witness for C9: one record and one layout element give one draw operation,
the name "Ada" at (10, 10) in white at size 24. -/
theorem render_image_draws_witness :
    (render_image sample_gdi template_path rendered_path [ada] [name_at_10_10]).draws
      = [⟨"Ada".toList, ⟨FontFace.arial, 24⟩, 10, 10, ⟨255, 255, 255, 255⟩⟩] :=
  (render_image_draws sample_gdi template_path rendered_path [ada] [name_at_10_10] []
    rfl rfl rfl).1

/-! ## Program -/

/-- The matcher finds a record exactly when some record has the birthday. -/
theorem find_birthday_people_ne_nil (d : Str) (people : List Person) :
    find_birthday_people d people ≠ [] ↔ ∃ p ∈ people, p.birthday = d := by
  have h := find_birthday_loop_eq d people []
  simp only [List.nil_append] at h
  unfold find_birthday_people
  rw [h, ne_eq, List.filter_eq_nil_iff]
  simp

/-- C6: the exit status of `WinMain` is non-zero exactly when the parsed record
list or the parsed layout is empty (it is then 1, and the set-background
collaborator is not called); in every other case `WinMain` calls the
set-background collaborator exactly once and returns 0, whatever the render and
the collaborator return. -/
theorem WinMain_status {Bitmap : Type} (w : World Bitmap) :
    ((WinMain w).status ≠ 0 ↔
        (parse_csv w.fs "data.csv".toList = []
          ∨ parse_yaml w.fs w.yaml "config.yaml".toList = []))
    ∧ (WinMain w).status
        = (if parse_csv w.fs "data.csv".toList = []
              ∨ parse_yaml w.fs w.yaml "config.yaml".toList = [] then 1 else 0)
    ∧ (WinMain w).wallpaper_calls.length
        = (if parse_csv w.fs "data.csv".toList = []
              ∨ parse_yaml w.fs w.yaml "config.yaml".toList = [] then 0 else 1) := by
  unfold WinMain
  generalize parse_csv w.fs "data.csv".toList = people
  generalize parse_yaml w.fs w.yaml "config.yaml".toList = config
  by_cases hp : people = []
  · simp [hp, Run.wallpaper_calls]
  · by_cases hc : config = []
    · simp [hp, hc, Run.wallpaper_calls]
    · simp only [hp, hc, if_false, or_self]
      split
      · simp [Run.wallpaper_calls]
      · split <;> simp [Run.wallpaper_calls]

/-- C7: with a non-empty record list and a non-empty layout, `WinMain` hands
the set-background collaborator one path, the absolute form of the rendered
output path when some record's birthday equals today's date string and
`render_image` returns success, and of the default image path otherwise (the
two path literals differ); `render_image` is called once when some record
matches and not at all when none does. -/
theorem WinMain_wallpaper_path {Bitmap : Type} (w : World Bitmap)
    (hpeople : parse_csv w.fs "data.csv".toList ≠ [])
    (hconfig : parse_yaml w.fs w.yaml "config.yaml".toList ≠ []) :
    (WinMain w).wallpaper_calls
        = [to_absolute w
            (if (∃ p ∈ parse_csv w.fs "data.csv".toList, p.birthday = get_current_date w.ltm)
                ∧ (render_image w.gdi template_path rendered_path
                    (find_birthday_people (get_current_date w.ltm)
                      (parse_csv w.fs "data.csv".toList))
                    (parse_yaml w.fs w.yaml "config.yaml".toList)).ok = true
             then rendered_path else default_path)]
    ∧ (WinMain w).render_calls
        = (if ∃ p ∈ parse_csv w.fs "data.csv".toList, p.birthday = get_current_date w.ltm
           then 1 else 0)
    ∧ rendered_path ≠ default_path := by
  refine ⟨?_, ?_, by decide⟩
  · unfold WinMain
    revert hpeople hconfig
    generalize parse_csv w.fs "data.csv".toList = people
    generalize parse_yaml w.fs w.yaml "config.yaml".toList = config
    intro hpeople hconfig
    have hm := find_birthday_people_ne_nil (get_current_date w.ltm) people
    simp only [hpeople, hconfig, if_false]
    by_cases hb : find_birthday_people (get_current_date w.ltm) people = []
    · have hno : ¬ ∃ p ∈ people, p.birthday = get_current_date w.ltm :=
        fun h => (hm.mpr h) hb
      simp [hb, hno, Run.wallpaper_calls]
    · have hyes := hm.mp hb
      simp only [hb, if_false, hyes, true_and]
      split <;> simp [Run.wallpaper_calls]
  · unfold WinMain
    revert hpeople hconfig
    generalize parse_csv w.fs "data.csv".toList = people
    generalize parse_yaml w.fs w.yaml "config.yaml".toList = config
    intro hpeople hconfig
    have hm := find_birthday_people_ne_nil (get_current_date w.ltm) people
    simp only [hpeople, hconfig, if_false]
    by_cases hb : find_birthday_people (get_current_date w.ltm) people = []
    · have hno : ¬ ∃ p ∈ people, p.birthday = get_current_date w.ltm :=
        fun h => (hm.mpr h) hb
      simp [hb, hno, Run.render_calls]
    · have hyes := hm.mp hb
      simp only [hb, if_false, hyes, if_true]
      split <;> simp [Run.render_calls]

/-- The records of `sample_world`. -/
theorem sample_world_people :
    parse_csv sample_world.fs "data.csv".toList
      = [⟨"Ada".toList, "3.7".toList, "x y".toList⟩, ⟨"Bob".toList, "12.25".toList, []⟩] :=
  parse_csv_of_csv_text sample_world.fs "data.csv".toList "name,birthday,note".toList
    sample_rows ['\n'] (by decide) (by decide) (Or.inr rfl) rfl

/-- Witness for C7: on March 7, with Ada's birthday "3.7" and a render that
succeeds, `WinMain` renders once and hands over the absolute form of the
rendered output path. -/
theorem WinMain_wallpaper_path_witness :
    (WinMain sample_world).wallpaper_calls = ["C:\\app\\bgs\\birthday_rendered.png".toList]
    ∧ (WinMain sample_world).render_calls = 1 := by
  have h := WinMain_wallpaper_path sample_world
    (by rw [sample_world_people]; exact List.cons_ne_nil _ _)
    (by decide)
  rw [sample_world_people] at h
  refine ⟨h.1.trans (by decide), h.2.1.trans (by decide)⟩

end BirthdayBg
